import Mathlib

/-!
Verification of the instruction-collection web application.

The definitions below are a shallow embedding of the JavaScript source:
`src/App.jsx` (filtering, pagination, tag index, usage stats, favorites,
quick action) and `src/website/src/utils/localStorage.js` (durable-storage
loaders), plus the static-data generator `generateInstructionData`.
JavaScript strings are modelled as Lean `String`, JS arrays as `List`,
JS objects used as string-keyed maps as association lists, and the
stateful React `set*` updates as explicit state-passing functions.
-/

namespace Spec2Proof

open scoped List

/-- An instruction record as produced by the generator and consumed by the
app.  Fields the JS code reads with an `x || default` guard are modelled as
total fields (the generator always emits them). -/
structure Instruction where
  filename : String
  category : String
  subcategories : List String
  content : String
  tags : List String
deriving Repr, DecidableEq

/-- JS `String.prototype.toLowerCase()` (ASCII case mapping, which covers
every string the keyword scanner and filter compare). -/
def jsToLower (s : String) : String := ⟨s.toList.map Char.toLower⟩

/-- `leadsWith p s` holds when the character list `p` starts the list `s`. -/
def leadsWith : List Char → List Char → Bool
  | [], _ => true
  | _ :: _, [] => false
  | a :: as, b :: bs => a == b && leadsWith as bs

/-- Scanner behind `jsIncludes`: does `sub` occur contiguously in `s`? -/
def hasSub (sub : List Char) : List Char → Bool
  | [] => sub.isEmpty
  | c :: rest => leadsWith sub (c :: rest) || hasSub sub rest

/-- JS `hay.includes(sub)`: `sub` occurs contiguously inside `hay`. -/
def jsIncludes (hay sub : String) : Bool := hasSub sub.toList hay.toList

/-- `filterInstructions` from `src/App.jsx` (lines 91–115): keep a record iff
it passes the favorites gate, the case-insensitive free-text search over
category/subcategories/content, and the selected-tags conjunction. -/
def filterInstructions (instructions : List Instruction) (searchQuery : String)
    (selectedTags favoriteInstructions : List String) : List Instruction :=
  instructions.filter fun instruction =>
    if selectedTags.contains "favorites"
        && !(favoriteInstructions.contains instruction.filename) then
      false
    else
      let matchesSearch :=
        jsIncludes (jsToLower instruction.category) (jsToLower searchQuery)
          || instruction.subcategories.any (fun subcategory =>
              jsIncludes (jsToLower subcategory) (jsToLower searchQuery))
          || jsIncludes (jsToLower instruction.content) (jsToLower searchQuery)
      let matchesTags :=
        selectedTags.isEmpty
          || selectedTags.all (fun tag =>
              tag == "favorites" || instruction.tags.contains tag)
      matchesSearch && matchesTags

/-- First record of example scenario 1 in the spec. -/
def xRec : Instruction :=
  { filename := "x.md", category := "frontend", subcategories := [],
    content := "", tags := ["frontend", "react"] }

/-- Second record of example scenario 1 in the spec. -/
def yRec : Instruction :=
  { filename := "y.md", category := "backend", subcategories := [],
    content := "", tags := ["backend", "go"] }

/-! ### Pagination (`loadMoreInstructions` and the reset effect) -/

/-- Pagination state held by the `App` component: the visible slice, the
current page number, and the `hasMore` flag. -/
structure PageState where
  visible : List Instruction
  page : Nat
  hasMore : Bool
deriving Repr, DecidableEq

/-- `PAGE_SIZE` from `src/App.jsx`. -/
def PAGE_SIZE : Nat := 20

/-- The reset effect of `App` (lines 140–145): show the first page of the
filtered list.  The page size is kept as a parameter; the app instantiates
it with `PAGE_SIZE`. -/
def resetPageState (filtered : List Instruction) (pageSize : Nat) : PageState :=
  { visible := filtered.take pageSize
    page := 1
    hasMore := decide (pageSize < filtered.length) }

/-- `loadMoreInstructions` (lines 118–127): append the next slice
`filtered.slice(startIndex, startIndex + pageSize)` and update the flag. -/
def loadMoreInstructions (filtered : List Instruction) (pageSize : Nat)
    (st : PageState) : PageState :=
  let nextPage := st.page + 1
  let startIndex := (nextPage - 1) * pageSize
  let newInstructions := (filtered.drop startIndex).take pageSize
  { visible := st.visible ++ newInstructions
    page := nextPage
    hasMore := decide (startIndex + pageSize < filtered.length) }

/-- State after the reset effect followed by `k` load-more steps, so its
`page` field is `k + 1`. -/
def pageStateAt (filtered : List Instruction) (pageSize : Nat) : Nat → PageState
  | 0 => resetPageState filtered pageSize
  | k + 1 => loadMoreInstructions filtered pageSize (pageStateAt filtered pageSize k)

/-- Sample record used to instantiate pagination at a concrete input. -/
def aRec : Instruction :=
  { filename := "a.md", category := "c", subcategories := [], content := "",
    tags := [] }

/-- Second sample record for concrete instantiations. -/
def bRec : Instruction :=
  { filename := "b.md", category := "c", subcategories := [], content := "",
    tags := [] }

/-! ### Tag index (`allTags` / `tagCounts` / `sortedTags`) -/

/-- One insertion step of a JS `Set` built from a list: add `x` at the end
unless it is already present (JS `Set` keeps first-occurrence order). -/
def setAdd (l : List String) (x : String) : List String :=
  if x ∈ l then l else l ++ [x]

/-- `[...new Set(stream)]`: deduplicate keeping first occurrences. -/
def jsSetOfList (stream : List String) : List String := stream.foldl setAdd []

/-- `allTags` (App.jsx line 54):
`[...new Set(instructions.flatMap(i => i.tags || []))]`. -/
def allTags (instructions : List Instruction) : List String :=
  jsSetOfList (instructions.flatMap (fun i => i.tags))

/-- `tagCounts` (App.jsx lines 57–60): how many records carry `tag`. -/
def tagCounts (instructions : List Instruction) (tag : String) : Nat :=
  (instructions.filter (fun i => i.tags.contains tag)).length

/-- Comparator of `sortedTags` (App.jsx line 63): the JS comparator
`(a, b) => tagCounts[b] - tagCounts[a]` places `a` no later than `b`
exactly when `tagCounts[b] ≤ tagCounts[a]`. -/
def tagLE (instructions : List Instruction) (a b : String) : Bool :=
  decide (tagCounts instructions b ≤ tagCounts instructions a)

/-- `sortedTags` (App.jsx line 63): tags sorted by descending record count;
JS `Array.prototype.sort` is stable, modelled by the stable `mergeSort`. -/
def sortedTags (instructions : List Instruction) : List String :=
  (allTags instructions).mergeSort (tagLE instructions)

/-- Record for instantiating the tag index at a concrete input. -/
def tagRec : Instruction :=
  { filename := "t.md", category := "c", subcategories := [], content := "",
    tags := ["t1", "t2"] }

/-! ### Usage statistics (`handleSelectInstruction`) -/

/-- JS object read `obj[k]` on a string-keyed map, as an association list:
`none` when the key is absent. -/
def objGet (obj : List (String × Nat)) (k : String) : Option Nat :=
  (obj.find? (fun p => p.1 == k)).map (fun p => p.2)

/-- JS spread update `{...obj, [k]: v}`: the existing binding of `k` (if
any) is overwritten in place, otherwise `k` is appended. -/
def objSet (obj : List (String × Nat)) (k : String) (v : Nat) :
    List (String × Nat) :=
  if (obj.find? (fun p => p.1 == k)).isSome then
    obj.map (fun p => if p.1 == k then (k, v) else p)
  else
    obj ++ [(k, v)]

/-- The stats update of `handleSelectInstruction` (App.jsx lines 410–420):
`{...prevStats, [r.filename]: (prevStats[r.filename] || 0) + 1}`. -/
def selectRecordStats (stats : List (String × Nat)) (r : Instruction) :
    List (String × Nat) :=
  objSet stats r.filename ((objGet stats r.filename).getD 0 + 1)

/-! ### Favorites (`handleToggleFavorite`) -/

/-- `handleToggleFavorite` (App.jsx lines 432–441): remove the filename when
present, append it when absent. -/
def toggleFavorite (favorites : List String) (r : Instruction) : List String :=
  if favorites.contains r.filename then
    favorites.filter (fun filename => !(filename == r.filename))
  else
    favorites ++ [r.filename]

/-! ### Quick action / most frequent tool -/

/-- An AI tool entry from `ai-tools.json`; only the name matters to the
selection algorithm. -/
structure Tool where
  name : String
deriving Repr, DecidableEq

/-- `stats[tool.name] || 0`: usage count, absent keys counting as 0.  The
app only ever writes non-negative counters, so the values are `Nat`. -/
def usageOf (stats : List (String × Nat)) (name : String) : Nat :=
  (objGet stats name).getD 0

/-- One step of the max-usage scan shared by `getMostFrequentTool`
(localStorage.js lines 88–101) and `handleQuickAction` (App.jsx lines
212–224): `if (usage > maxUsage) maxUsage = usage` starting from `-1`. -/
def maxStep (stats : List (String × Nat)) (m : Int) (t : Tool) : Int :=
  if (usageOf stats t.name : Int) > m then (usageOf stats t.name : Int) else m

/-- The maximum usage count across `tools`, computed as in the JS code. -/
def maxUsage (tools : List Tool) (stats : List (String × Nat)) : Int :=
  tools.foldl (maxStep stats) (-1)

/-- `candidates`: all tools tied at the maximum usage. -/
def candidates (tools : List Tool) (stats : List (String × Nat)) : List Tool :=
  tools.filter (fun t => decide ((usageOf stats t.name : Int) = maxUsage tools stats))

/-- `getMostFrequentTool` with the random draw
`Math.floor(Math.random() * candidates.length)` passed in as `r`
(the JS draw always satisfies `r < candidates.length`). -/
def getMostFrequentTool (tools : List Tool) (stats : List (String × Nat))
    (r : Nat) : Option Tool :=
  let cs := candidates tools stats
  if cs.length = 0 then none else cs[r]?

/-- Tool named "Tool A" of example scenario 3. -/
def toolA : Tool := { name := "Tool A" }

/-- Tool named "Tool B" of example scenario 3. -/
def toolB : Tool := { name := "Tool B" }

/-- Tool named "Tool C" of example scenario 3. -/
def toolC : Tool := { name := "Tool C" }

/-- Usage stats of example scenario 3. -/
def statsABC : List (String × Nat) :=
  [("Tool A", 3), ("Tool B", 3), ("Tool C", 1)]

/-! ### Display lists: top instructions and favorites -/

/-- `topInstructions` (App.jsx lines 423–430): sort the usage-stats
entries by descending count, keep the first five, join each filename to its
record (dropping keys with no matching record), and pair it with the
count. -/
def topInstructions (instrs : List Instruction)
    (usageStats : List (String × Nat)) : List (Instruction × Nat) :=
  ((usageStats.mergeSort (fun a b => decide (b.2 ≤ a.2))).take 5).filterMap
    (fun p => (instrs.find? (fun i => i.filename == p.1)).map
      (fun i => (i, p.2)))

/-- `favoritesData` (App.jsx lines 444–451): join each favorite filename to
its record and usage count (dropping unmatched filenames), sort by
descending usage count, and keep the first five. -/
def favoritesData (instrs : List Instruction) (favorites : List String)
    (usageStats : List (String × Nat)) : List (Instruction × Nat) :=
  ((favorites.filterMap (fun filename =>
      (instrs.find? (fun i => i.filename == filename)).map
        (fun i => (i, usageOf usageStats filename)))).mergeSort
    (fun a b => decide (b.2 ≤ a.2))).take 5

/-! ### Generator: tag derivation (`generateInstructionData`) -/

/-- JS regex word character `\w`: `[A-Za-z0-9_]` (unchanged by the `i`
flag). -/
def isWordChar (c : Char) : Bool :=
  ('a' ≤ c && c ≤ 'z') || ('A' ≤ c && c ≤ 'Z') || ('0' ≤ c && c ≤ '9')
    || c == '_'

/-- Whether position `i` of `s` holds a word character (out-of-range
positions count as non-word). -/
def wordAt (s : List Char) (i : Nat) : Bool :=
  match s[i]? with
  | some c => isWordChar c
  | none => false

/-- JS regex `\b`: a word boundary sits at position `i` exactly when the
characters on the two sides of the position disagree on word-ness. -/
def boundaryAt (s : List Char) (i : Nat) : Bool :=
  (if i = 0 then false else wordAt s (i - 1)) != wordAt s i

/-- Case-insensitive literal match of `kw` at position `i` of `body`
(the regex `i` flag). -/
def ciMatchAt (kw body : List Char) (i : Nat) : Bool :=
  leadsWith (kw.map Char.toLower) ((body.drop i).map Char.toLower)

/-- `new RegExp("\\b" + escapeRegExp(keyword) + "\\b", "i").test(body)`:
some position of `body` carries a case-insensitive occurrence of the
literal keyword flanked by word boundaries.  (`escapeRegExp` makes the
keyword a literal, so the only regex operators left are the two `\b`.) -/
def wordMatch (kw body : String) : Bool :=
  (List.range (body.toList.length + 1)).any (fun i =>
    boundaryAt body.toList i && ciMatchAt kw.toList body.toList i &&
    boundaryAt body.toList (i + kw.toList.length))

/-- `languageKeywords` from `generateInstructionData`. -/
def languageKeywords : List String :=
  ["JavaScript", "TypeScript", "Python", "Java", "C++", "C#", "Ruby", "Go",
    "Rust"]

/-- `archKeywords` from `generateInstructionData`. -/
def archKeywords : List String := ["x86", "x64", "ARM", "MIPS"]

/-- `libraryKeywords` from `generateInstructionData`. -/
def libraryKeywords : List String :=
  ["React", "Angular", "Vue", "Laravel", "Django", "Spring", "Node",
    "Express"]

/-- Tag derivation of `generateInstructionData` (lines 572–607): start from
the JS Set `{category, ...subcategories, ...frontMatter.tags}`, collect
every keyword of the three fixed lists whose whole-word case-insensitive
regex matches the Markdown body, and merge those keywords into the set. -/
def generateTags (category : String)
    (subcategories frontMatterTags : List String) (body : String) :
    List String :=
  let tags := jsSetOfList (category :: (subcategories ++ frontMatterTags))
  let additionalTags := jsSetOfList
    ((languageKeywords ++ archKeywords ++ libraryKeywords).filter
      (fun kw => wordMatch kw body))
  additionalTags.foldl setAdd tags

/-! ### Durable storage loaders (`localStorage.js`)

`localStorage` is modelled as a string-keyed partial map, `JSON.parse` as a
parser over a `JsValue` type, and a thrown `SyntaxError` as `Except.error`.
-/

/-- A JSON value, as produced by the JS builtin `JSON.parse`. -/
inductive JsValue where
  | null
  | bool (b : Bool)
  | num (n : Int)
  | str (s : String)
  | arr (elems : List JsValue)
  | obj (fields : List (String × JsValue))

/-- Drop leading JSON whitespace. -/
def skipWs : List Char → List Char
  | [] => []
  | c :: rest =>
    if c = ' ' ∨ c = '\n' ∨ c = '\t' ∨ c = '\r' then skipWs rest
    else c :: rest

/-- Read a string literal body up to the closing quote (the stored values
never contain escapes; a backslash fails the parse). -/
def parseStrChars : List Char → Option (List Char × List Char)
  | [] => none
  | c :: rest =>
    if c = '"' then some ([], rest)
    else if c = '\\' then none
    else match parseStrChars rest with
      | some (cs, rem) => some (c :: cs, rem)
      | none => none

/-- Split off a maximal run of decimal digits. -/
def takeDigits : List Char → (List Char × List Char)
  | [] => ([], [])
  | c :: rest =>
    if c.isDigit then
      match takeDigits rest with
      | (ds, rem) => (c :: ds, rem)
    else ([], c :: rest)

/-- Decimal digits to a number. -/
def digitsToNat (ds : List Char) : Nat :=
  ds.foldl (fun n c => n * 10 + (c.toNat - '0'.toNat)) 0

mutual

/-- Fuel-indexed JSON value parser. -/
def parseVal : Nat → List Char → Option (JsValue × List Char)
  | 0, _ => none
  | fuel + 1, s =>
    match skipWs s with
    | 'n' :: 'u' :: 'l' :: 'l' :: rest => some (.null, rest)
    | 't' :: 'r' :: 'u' :: 'e' :: rest => some (.bool true, rest)
    | 'f' :: 'a' :: 'l' :: 's' :: 'e' :: rest => some (.bool false, rest)
    | '"' :: rest =>
      (match parseStrChars rest with
       | some (cs, rem) => some (.str ⟨cs⟩, rem)
       | none => none)
    | '[' :: rest =>
      (match skipWs rest with
       | ']' :: rem => some (.arr [], rem)
       | _ =>
         match parseElems fuel rest with
         | some (xs, rem) => some (.arr xs, rem)
         | none => none)
    | '{' :: rest =>
      (match skipWs rest with
       | '}' :: rem => some (.obj [], rem)
       | _ =>
         match parseFields fuel rest with
         | some (fs, rem) => some (.obj fs, rem)
         | none => none)
    | '-' :: rest =>
      (match takeDigits rest with
       | ([], _) => none
       | (ds, rem) => some (.num (-(digitsToNat ds : Int)), rem))
    | c :: rest =>
      if c.isDigit then
        match takeDigits (c :: rest) with
        | (ds, rem) => some (.num ((digitsToNat ds : Int)), rem)
      else none
    | [] => none

/-- Fuel-indexed parser for the elements after `[`. -/
def parseElems : Nat → List Char → Option (List JsValue × List Char)
  | 0, _ => none
  | fuel + 1, s =>
    match parseVal fuel s with
    | none => none
    | some (v, rem) =>
      match skipWs rem with
      | ',' :: rem2 =>
        (match parseElems fuel rem2 with
         | some (vs, rem3) => some (v :: vs, rem3)
         | none => none)
      | ']' :: rem2 => some ([v], rem2)
      | _ => none

/-- Fuel-indexed parser for the fields after `{`. -/
def parseFields : Nat → List Char →
    Option (List (String × JsValue) × List Char)
  | 0, _ => none
  | fuel + 1, s =>
    match skipWs s with
    | '"' :: rest =>
      (match parseStrChars rest with
       | none => none
       | some (key, rem) =>
         match skipWs rem with
         | ':' :: rem2 =>
           (match parseVal fuel rem2 with
            | none => none
            | some (v, rem3) =>
              match skipWs rem3 with
              | ',' :: rem4 =>
                (match parseFields fuel rem4 with
                 | some (fs, rem5) => some ((⟨key⟩, v) :: fs, rem5)
                 | none => none)
              | '}' :: rem4 => some ([(⟨key⟩, v)], rem4)
              | _ => none)
         | _ => none)
    | _ => none

end

/-- Model of the JS builtin `JSON.parse`, restricted to the JSON fragment
the app stores (null, booleans, integers, escape-free strings, arrays,
objects); any other input throws, modelled as `Except.error`. -/
def jsonParse (s : String) : Except String JsValue :=
  match parseVal (s.toList.length + 1) s.toList with
  | some (v, rem) =>
    if (skipWs rem).isEmpty then .ok v else .error "SyntaxError"
  | none => .error "SyntaxError"

/-- The browser `localStorage`: `getItem` returns `none` for absent keys. -/
def Store := String → Option String

/-- `x || d` on a `getItem` result: `null` and `""` are falsy. -/
def orDefault (v : Option String) (d : String) : String :=
  match v with
  | some s => if s.isEmpty then d else s
  | none => d

/-- `loadCustomTools` (localStorage.js lines 1–4):
`saved ? JSON.parse(saved) : []`; there is no try/catch, so a parse failure
propagates. -/
def loadCustomTools (store : Store) : Except String JsValue :=
  match store "customTools" with
  | some s => if s.isEmpty then .ok (.arr []) else jsonParse s
  | none => .ok (.arr [])

/-- `loadInstructionUsageStats` (lines 10–13): default `{}`, no
try/catch. -/
def loadInstructionUsageStats (store : Store) : Except String JsValue :=
  match store "instructionUsageStats" with
  | some s => if s.isEmpty then .ok (.obj []) else jsonParse s
  | none => .ok (.obj [])

/-- `loadToolUsageStats` (lines 23–26): default `{}`, no try/catch. -/
def loadToolUsageStats (store : Store) : Except String JsValue :=
  match store "toolUsageStats" with
  | some s => if s.isEmpty then .ok (.obj []) else jsonParse s
  | none => .ok (.obj [])

/-- `loadFavoriteInstructions` (lines 32–35): default `[]`, no
try/catch. -/
def loadFavoriteInstructions (store : Store) : Except String JsValue :=
  match store "favoriteInstructions" with
  | some s => if s.isEmpty then .ok (.arr []) else jsonParse s
  | none => .ok (.arr [])

/-- `loadReferencesData` (lines 45–48): default `{}`, no try/catch. -/
def loadReferencesData (store : Store) : Except String JsValue :=
  match store "referencesData" with
  | some s => if s.isEmpty then .ok (.obj []) else jsonParse s
  | none => .ok (.obj [])

/-- `loadDarkMode` (lines 55–63): wrapped in try/catch.  An absent or empty
value falls back to the OS-level preference
(`window.matchMedia('(prefers-color-scheme: dark)').matches`, passed in as
`osPrefersDark`); a parse failure is caught and yields `false`. -/
def loadDarkMode (store : Store) (osPrefersDark : Bool) : JsValue :=
  match store "darkMode" with
  | some s =>
    if s.isEmpty then .bool osPrefersDark
    else
      match jsonParse s with
      | .ok v => v
      | .error _ => .bool false
  | none => .bool osPrefersDark

/-- The bundle returned by `loadStoredState` (lines 78–86). -/
structure StoredState where
  darkMode : Bool
  customTools : JsValue
  instructionUsageStats : JsValue
  toolUsageStats : JsValue
  favoriteInstructions : JsValue

/-- `loadStoredState` (lines 78–86): `darkMode` is the raw comparison
`getItem('darkMode') !== 'false'` (true when absent), and each remaining
field is `JSON.parse(getItem(key) || default)` with no try/catch, so a
parse failure propagates. -/
def loadStoredState (store : Store) : Except String StoredState := do
  let customTools ← jsonParse (orDefault (store "customTools") "[]")
  let instructionUsageStats ←
    jsonParse (orDefault (store "instructionUsageStats") "\x7b\x7d")
  let toolUsageStats ← jsonParse (orDefault (store "toolUsageStats") "\x7b\x7d")
  let favoriteInstructions ←
    jsonParse (orDefault (store "favoriteInstructions") "[]")
  pure
    { darkMode := store "darkMode" != some "false"
      customTools := customTools
      instructionUsageStats := instructionUsageStats
      toolUsageStats := toolUsageStats
      favoriteInstructions := favoriteInstructions }

/-- Store with an unparsable `customTools` value. -/
def badStore : Store :=
  fun k => if k = "customTools" then some "\x7b" else none

/-- Store with nothing set. -/
def emptyStore : Store := fun _ => none

/-- Store with an unparsable `darkMode` value. -/
def badDarkStore : Store :=
  fun k => if k = "darkMode" then some "not json" else none

/-! ### Theorems -/

theorem leadsWith_iff (p s : List Char) : leadsWith p s = true ↔ p <+: s := by
  induction p generalizing s with
  | nil => simp only [leadsWith, true_iff]; exact ⟨s, rfl⟩
  | cons a as ih =>
    cases s with
    | nil => simp [leadsWith]
    | cons b bs => simp [leadsWith, List.cons_prefix_cons, ih]

theorem hasSub_iff (sub s : List Char) : hasSub sub s = true ↔ sub <:+: s := by
  induction s with
  | nil => simp [hasSub, List.isEmpty_iff]
  | cons c rest ih => simp [hasSub, leadsWith_iff, ih, List.infix_cons_iff]

theorem jsIncludes_iff (hay sub : String) :
    jsIncludes hay sub = true ↔ sub.toList <:+: hay.toList :=
  hasSub_iff _ _

/-- C1: `filterInstructions` returns exactly the records satisfying the
conjunction of (a) the favorites gate, (b) the case-insensitive substring
search over category, some subcategory, or content, and (c) every selected
tag other than the `"favorites"` sentinel being on the record; and on the
two-record example, `selectedTags = ["react"]` keeps only `x.md` while
`selectedTags = ["favorites"]` with favorite set `["y.md"]` keeps only
`y.md`. -/
theorem filterInstructions_spec :
    (∀ (instrs : List Instruction) (q : String) (selTags favs : List String)
        (r : Instruction),
      r ∈ filterInstructions instrs q selTags favs ↔
        r ∈ instrs ∧
        ("favorites" ∈ selTags → r.filename ∈ favs) ∧
        ((jsToLower q).toList <:+: (jsToLower r.category).toList ∨
          (∃ sc ∈ r.subcategories,
            (jsToLower q).toList <:+: (jsToLower sc).toList) ∨
          (jsToLower q).toList <:+: (jsToLower r.content).toList) ∧
        (∀ t ∈ selTags, t ≠ "favorites" → t ∈ r.tags)) ∧
    filterInstructions [xRec, yRec] "" ["react"] [] = [xRec] ∧
    filterInstructions [xRec, yRec] "" ["favorites"] ["y.md"] = [yRec] := by
  refine ⟨fun instrs q selTags favs r => ?_, by decide, by decide⟩
  simp only [filterInstructions, List.mem_filter]
  constructor
  · rintro ⟨hmem, hpass⟩
    refine ⟨hmem, ?_⟩
    split at hpass
    · exact absurd hpass (by simp)
    · rename_i hgate
      simp only [Bool.and_eq_true, Bool.not_eq_true', Bool.not_eq_true,
        List.contains, List.elem_eq_mem, decide_eq_true_eq, not_and,
        decide_eq_false_iff_not, not_not] at hgate
      simp only [Bool.and_eq_true, Bool.or_eq_true, jsIncludes_iff,
        List.any_eq_true, List.isEmpty_iff, List.all_eq_true, beq_iff_eq,
        List.contains, List.elem_eq_mem, decide_eq_true_eq] at hpass
      obtain ⟨hsearch, htags⟩ := hpass
      refine ⟨hgate, ?_, ?_⟩
      · rcases hsearch with (h | h) | h
        · exact Or.inl h
        · exact Or.inr (Or.inl h)
        · exact Or.inr (Or.inr h)
      · intro t ht hne
        rcases htags with hempty | hall
        · simp [hempty] at ht
        · rcases hall t ht with h | h
          · exact absurd h hne
          · exact h
  · rintro ⟨hmem, hgate, hsearch, htags⟩
    refine ⟨hmem, ?_⟩
    split
    · rename_i hcond
      simp only [Bool.and_eq_true, Bool.not_eq_true', List.contains,
        List.elem_eq_mem, decide_eq_true_eq, decide_eq_false_iff_not] at hcond
      exact absurd (hgate hcond.1) hcond.2
    · simp only [Bool.and_eq_true, Bool.or_eq_true, jsIncludes_iff,
        List.any_eq_true, List.isEmpty_iff, List.all_eq_true, beq_iff_eq,
        List.contains, List.elem_eq_mem, decide_eq_true_eq]
      refine ⟨?_, ?_⟩
      · rcases hsearch with h | h | h
        · exact Or.inl (Or.inl h)
        · exact Or.inl (Or.inr h)
        · exact Or.inr h
      · right
        intro t ht
        by_cases hfav : t = "favorites"
        · exact Or.inl hfav
        · exact Or.inr (htags t ht hfav)

theorem pageStateAt_eq (filtered : List Instruction) (pageSize : Nat) (k : Nat) :
    pageStateAt filtered pageSize k =
      { visible := filtered.take ((k + 1) * pageSize)
        page := k + 1
        hasMore := decide ((k + 1) * pageSize < filtered.length) } := by
  induction k with
  | zero => simp [pageStateAt, resetPageState, Nat.one_mul]
  | succ k ih =>
    simp only [pageStateAt, ih, loadMoreInstructions, Nat.add_sub_cancel]
    rw [Nat.succ_mul (k + 1) pageSize, List.take_add]

/-- C2: after `n ≥ 1` pagination steps the visible list is exactly the prefix
slice `[0, n * pageSize)` of the filtered list, hence a prefix of the list at
step `n + 1`, and the `hasMore` flag is `false` exactly when the cumulative
slice already has the filtered list's length. -/
theorem pagination_spec (filtered : List Instruction) (pageSize n : Nat)
    (hn : 1 ≤ n) :
    (pageStateAt filtered pageSize (n - 1)).page = n ∧
    (pageStateAt filtered pageSize (n - 1)).visible = filtered.take (n * pageSize) ∧
    (pageStateAt filtered pageSize (n - 1)).visible <+:
      (pageStateAt filtered pageSize n).visible ∧
    ((pageStateAt filtered pageSize (n - 1)).hasMore = false ↔
      (filtered.take (n * pageSize)).length = filtered.length) := by
  obtain ⟨m, rfl⟩ : ∃ m, n = m + 1 := ⟨n - 1, (Nat.succ_pred_eq_of_pos hn).symm⟩
  simp only [Nat.add_sub_cancel, pageStateAt_eq]
  refine ⟨by trivial, by trivial, ?_, ?_⟩
  · have hle : (m + 1) * pageSize ≤ (m + 1 + 1) * pageSize :=
      Nat.mul_le_mul_right _ (Nat.le_succ _)
    have : filtered.take ((m + 1) * pageSize) =
        (filtered.take ((m + 1 + 1) * pageSize)).take ((m + 1) * pageSize) := by
      rw [List.take_take, Nat.min_eq_left hle]
    rw [this]
    exact List.take_prefix _ _
  · rw [List.length_take]
    constructor
    · intro h
      have : ¬((m + 1) * pageSize < filtered.length) := by
        simpa using h
      exact Nat.min_eq_right (Nat.le_of_not_lt this)
    · intro h
      have : filtered.length ≤ (m + 1) * pageSize := by
        by_contra hlt
        push_neg at hlt
        rw [Nat.min_eq_left (Nat.le_of_lt hlt)] at h
        omega
      simpa using Nat.not_lt.mpr this

/-- Concrete instantiation of `pagination_spec` at a two-record list with
page size 1 and page number 2. -/
theorem pagination_spec_witness :
    (pageStateAt [aRec, bRec] 1 1).page = 2 ∧
    (pageStateAt [aRec, bRec] 1 1).visible = [aRec, bRec].take 2 ∧
    (pageStateAt [aRec, bRec] 1 1).visible <+: (pageStateAt [aRec, bRec] 1 2).visible ∧
    ((pageStateAt [aRec, bRec] 1 1).hasMore = false ↔
      ([aRec, bRec].take 2).length = [aRec, bRec].length) := by
  have h := pagination_spec [aRec, bRec] 1 2 (by decide)
  simpa using h

theorem mem_setAdd {l : List String} {x y : String} :
    y ∈ setAdd l x ↔ y ∈ l ∨ y = x := by
  unfold setAdd
  split
  · rename_i h
    constructor
    · exact Or.inl
    · rintro (hy | rfl)
      · exact hy
      · exact h
  · simp

theorem nodup_setAdd {l : List String} (h : l.Nodup) (x : String) :
    (setAdd l x).Nodup := by
  unfold setAdd
  split
  · exact h
  · rename_i hx
    simpa [List.nodup_append] using ⟨h, fun hmem => hx hmem⟩

theorem setAdd_sublist (l : List String) (x : String) :
    setAdd l x <+ l ++ [x] := by
  unfold setAdd
  split
  · exact List.sublist_append_left l [x]
  · exact List.Sublist.refl _

theorem foldl_setAdd_mem (stream : List String) :
    ∀ (acc : List String) (y : String),
      y ∈ stream.foldl setAdd acc ↔ y ∈ acc ∨ y ∈ stream := by
  induction stream with
  | nil => simp
  | cons x xs ih =>
    intro acc y
    simp only [List.foldl_cons, ih, mem_setAdd, List.mem_cons]
    tauto

theorem foldl_setAdd_nodup (stream : List String) :
    ∀ (acc : List String), acc.Nodup → (stream.foldl setAdd acc).Nodup := by
  induction stream with
  | nil => exact fun acc h => h
  | cons x xs ih => exact fun acc h => ih _ (nodup_setAdd h x)

theorem foldl_setAdd_sublist (stream : List String) :
    ∀ (acc : List String), stream.foldl setAdd acc <+ acc ++ stream := by
  induction stream with
  | nil => simp
  | cons x xs ih =>
    intro acc
    calc (x :: xs).foldl setAdd acc = xs.foldl setAdd (setAdd acc x) := rfl
      _ <+ setAdd acc x ++ xs := ih _
      _ <+ (acc ++ [x]) ++ xs := (setAdd_sublist acc x).append_right xs
      _ = acc ++ x :: xs := by simp

theorem mem_jsSetOfList {stream : List String} {y : String} :
    y ∈ jsSetOfList stream ↔ y ∈ stream := by
  simp [jsSetOfList, foldl_setAdd_mem]

theorem nodup_jsSetOfList (stream : List String) : (jsSetOfList stream).Nodup :=
  foldl_setAdd_nodup stream [] List.nodup_nil

theorem jsSetOfList_sublist (stream : List String) :
    jsSetOfList stream <+ stream := by
  simpa [jsSetOfList] using foldl_setAdd_sublist stream []

theorem tagLE_trans (instrs : List Instruction) (a b c : String) :
    tagLE instrs a b → tagLE instrs b c → tagLE instrs a c := by
  simp only [tagLE, decide_eq_true_eq]
  exact fun h1 h2 => Nat.le_trans h2 h1

theorem tagLE_total (instrs : List Instruction) (a b : String) :
    tagLE instrs a b || tagLE instrs b a := by
  simp only [tagLE, Bool.or_eq_true, decide_eq_true_eq]
  exact Nat.le_total (tagCounts instrs b) (tagCounts instrs a)

/-- C3: `tagCounts` counts exactly the records carrying the tag; the
displayed `sortedTags` list has each tag occurring on some record exactly
once, is ordered by descending count, and tags with equal counts keep their
first-occurrence order (`allTags` itself being the first-occurrence
deduplication of the input tag stream). -/
theorem tagIndex_spec (instrs : List Instruction) :
    (∀ t, tagCounts instrs t = (instrs.filter (fun i => decide (t ∈ i.tags))).length) ∧
    (∀ t, t ∈ sortedTags instrs ↔ ∃ i ∈ instrs, t ∈ i.tags) ∧
    (sortedTags instrs).Nodup ∧
    (sortedTags instrs).Pairwise
      (fun a b => tagCounts instrs b ≤ tagCounts instrs a) ∧
    allTags instrs <+ instrs.flatMap (fun i => i.tags) ∧
    (∀ a b, tagCounts instrs a = tagCounts instrs b →
      [a, b] <+ allTags instrs → [a, b] <+ sortedTags instrs) := by
  refine ⟨?_, ?_, ?_, ?_, ?_, ?_⟩
  · intro t
    simp [tagCounts]
  · intro t
    rw [sortedTags, List.mem_mergeSort, allTags, mem_jsSetOfList,
      List.mem_flatMap]
  · exact (List.mergeSort_perm _ _).nodup_iff.mpr
      (nodup_jsSetOfList _)
  · have h := List.sorted_mergeSort
      (tagLE_trans instrs) (tagLE_total instrs) (allTags instrs)
    exact h.imp (fun {a b} hab => by
      simpa [tagLE] using hab)
  · exact jsSetOfList_sublist _
  · intro a b hcount hsub
    refine List.sublist_mergeSort (tagLE_trans instrs) (tagLE_total instrs)
      ?_ hsub
    simp [tagLE, hcount]

/-- Concrete instantiation of `tagIndex_spec`: on a single record carrying
`t1` then `t2` (equal counts), the displayed order keeps `t1` before `t2`. -/
theorem tagIndex_spec_witness :
    tagCounts [tagRec] "t1" = tagCounts [tagRec] "t2" ∧
    ["t1", "t2"] <+ sortedTags [tagRec] := by
  refine ⟨by decide, ?_⟩
  exact (tagIndex_spec [tagRec]).2.2.2.2.2 "t1" "t2" (by decide) (by decide)

theorem find?_key_cons (k : String) (q : String × Nat)
    (rest : List (String × Nat)) :
    (q :: rest).find? (fun p => p.1 == k) =
      if q.1 == k then some q else rest.find? (fun p => p.1 == k) := by
  by_cases h : (q.1 == k) = true
  · rw [if_pos h]
    exact List.find?_cons_of_pos _ h
  · rw [if_neg h]
    exact List.find?_cons_of_neg _ h

theorem find?_map_overwrite (k : String) (v : Nat)
    (obj : List (String × Nat)) :
    (obj.map (fun p => if p.1 == k then (k, v) else p)).find?
        (fun p => p.1 == k) =
      (obj.find? (fun p => p.1 == k)).map (fun _ => (k, v)) := by
  induction obj with
  | nil => rfl
  | cons q rest ih =>
    rw [List.map_cons, find?_key_cons k q rest]
    by_cases hq : (q.1 == k) = true
    · rw [if_pos hq, if_pos hq, find?_key_cons, if_pos (by simp)]
      rfl
    · rw [if_neg hq, if_neg hq, find?_key_cons, if_neg hq, ih]

theorem find?_map_overwrite_other (k k' : String) (v : Nat) (hne : k' ≠ k)
    (obj : List (String × Nat)) :
    (obj.map (fun p => if p.1 == k then (k, v) else p)).find?
        (fun p => p.1 == k') =
      obj.find? (fun p => p.1 == k') := by
  induction obj with
  | nil => rfl
  | cons q rest ih =>
    rw [List.map_cons, find?_key_cons k' q rest]
    by_cases hq : (q.1 == k) = true
    · have hkk' : ¬(((k, v).1 == k') = true) := by
        simp only [beq_iff_eq]
        exact fun h => hne h.symm
      have hqk' : ¬((q.1 == k') = true) := by
        simp only [beq_iff_eq] at hq ⊢
        rw [hq]
        exact fun h => hne h.symm
      rw [if_pos hq, find?_key_cons, if_neg hkk', if_neg hqk', ih]
    · rw [if_neg hq, find?_key_cons, ih]

theorem objGet_objSet_self (obj : List (String × Nat)) (k : String) (v : Nat) :
    objGet (objSet obj k v) k = some v := by
  unfold objGet objSet
  split
  · rename_i hsome
    rw [find?_map_overwrite]
    obtain ⟨p, hp⟩ := Option.isSome_iff_exists.mp hsome
    rw [hp]
    rfl
  · rename_i hnone
    rw [Option.not_isSome_iff_eq_none] at hnone
    rw [List.find?_append, hnone, Option.none_or,
      List.find?_cons_of_pos _ (by simp)]
    rfl

theorem objGet_objSet_other (obj : List (String × Nat)) (k k' : String)
    (v : Nat) (hne : k' ≠ k) : objGet (objSet obj k v) k' = objGet obj k' := by
  unfold objGet objSet
  split
  · rw [find?_map_overwrite_other k k' v hne]
  · have : ([(k, v)].find? (fun p => p.1 == k')) = none := by
      refine List.find?_eq_none.mpr ?_
      rintro p hp
      simp only [List.mem_singleton] at hp
      subst hp
      simp only [beq_iff_eq]
      exact fun h => hne h.symm
    rw [List.find?_append, this, Option.or_none]

/-- C5: selecting a record bumps its usage count by exactly one (from zero
when absent), leaves every other key unchanged, never decreases the count,
and `n` consecutive selections increase it by exactly `n`. -/
theorem selectRecord_spec (stats : List (String × Nat)) (r : Instruction)
    (n : Nat) :
    ((objGet (selectRecordStats stats r) r.filename).getD 0 =
      (objGet stats r.filename).getD 0 + 1) ∧
    (∀ k, k ≠ r.filename →
      objGet (selectRecordStats stats r) k = objGet stats k) ∧
    ((objGet stats r.filename).getD 0 ≤
      (objGet (selectRecordStats stats r) r.filename).getD 0) ∧
    ((objGet ((fun s => selectRecordStats s r)^[n] stats) r.filename).getD 0 =
      (objGet stats r.filename).getD 0 + n) := by
  have hbump : ∀ s, (objGet (selectRecordStats s r) r.filename).getD 0 =
      (objGet s r.filename).getD 0 + 1 := by
    intro s
    rw [selectRecordStats, objGet_objSet_self]
    rfl
  refine ⟨hbump stats, ?_, ?_, ?_⟩
  · intro k hk
    exact objGet_objSet_other stats r.filename k _ hk
  · rw [hbump stats]
    exact Nat.le_succ _
  · induction n with
    | zero => simp
    | succ m ih =>
      rw [Function.iterate_succ_apply', hbump, ih]
      omega

/-- Concrete instantiation of `selectRecord_spec`: two selections of `a.md`
starting from an empty stats map yield count 2, and an unrelated key stays
absent. -/
theorem selectRecord_spec_witness :
    (objGet (selectRecordStats [] aRec) "a.md").getD 0 = 0 + 1 ∧
    objGet (selectRecordStats [] aRec) "z.md" = objGet ([] : List (String × Nat)) "z.md" ∧
    (objGet ((fun s => selectRecordStats s aRec)^[2] []) "a.md").getD 0 = 0 + 2 := by
  have h := selectRecord_spec [] aRec 2
  exact ⟨by simpa using h.1, h.2.1 "z.md" (by decide), by simpa using h.2.2.2⟩

/-- C6: toggling removes the filename when present and appends it when
absent; the entries other than the toggled filename are untouched (same
elements in the same order); a duplicate-free list stays duplicate-free; and
toggling twice restores the original membership. -/
theorem toggleFavorite_spec (favorites : List String) (r : Instruction) :
    (r.filename ∈ favorites →
      toggleFavorite favorites r =
        favorites.filter (fun f => decide (f ≠ r.filename))) ∧
    (r.filename ∉ favorites →
      toggleFavorite favorites r = favorites ++ [r.filename]) ∧
    ((toggleFavorite favorites r).filter (fun f => decide (f ≠ r.filename)) =
      favorites.filter (fun f => decide (f ≠ r.filename))) ∧
    (favorites.Nodup → (toggleFavorite favorites r).Nodup) ∧
    (r.filename ∈ toggleFavorite (toggleFavorite favorites r) r ↔
      r.filename ∈ favorites) := by
  have hfilter_eq : (fun filename => !(filename == r.filename)) =
      (fun f => decide (f ≠ r.filename)) := by
    funext f
    by_cases h : f = r.filename <;> simp [h]
  have hmem_togg : ∀ (l : List String),
      r.filename ∈ toggleFavorite l r ↔ r.filename ∉ l := by
    intro l
    unfold toggleFavorite
    split
    · rename_i h
      simp only [List.contains, List.elem_eq_mem, decide_eq_true_eq] at h
      simp [List.mem_filter, h]
    · rename_i h
      simp only [List.contains, List.elem_eq_mem, decide_eq_true_eq] at h
      simp [h]
  refine ⟨?_, ?_, ?_, ?_, ?_⟩
  · intro hmem
    unfold toggleFavorite
    rw [if_pos (by simpa [List.contains, List.elem_eq_mem] using hmem)]
    rw [hfilter_eq]
  · intro hmem
    unfold toggleFavorite
    rw [if_neg (by simpa [List.contains, List.elem_eq_mem] using hmem)]
  · unfold toggleFavorite
    split
    · rw [hfilter_eq, List.filter_filter]
      congr 1
      funext a
      exact Bool.and_self _
    · rw [List.filter_append]
      have : ([r.filename].filter (fun f => decide (f ≠ r.filename))) = [] := by
        simp
      rw [this, List.append_nil]
  · intro hnd
    unfold toggleFavorite
    split
    · exact hnd.filter _
    · rename_i h
      simp only [List.contains, List.elem_eq_mem, decide_eq_true_eq] at h
      simpa [List.nodup_append] using ⟨hnd, h⟩
  · rw [hmem_togg, hmem_togg]
    by_cases h : r.filename ∈ favorites <;> simp [h]

/-- Concrete instantiation of `toggleFavorite_spec`: toggling `a.md` twice
starting from `["a.md"]` ends with `a.md` a favorite again. -/
theorem toggleFavorite_spec_witness :
    toggleFavorite ["a.md"] aRec = [] ∧
    (aRec.filename ∈ toggleFavorite (toggleFavorite ["a.md"] aRec) aRec ↔
      aRec.filename ∈ ["a.md"]) := by
  have h := toggleFavorite_spec ["a.md"] aRec
  refine ⟨?_, h.2.2.2.2⟩
  have h1 := h.1 (by decide)
  simpa using h1

theorem init_le_foldl_maxStep (stats : List (String × Nat)) :
    ∀ (tools : List Tool) (m : Int), m ≤ tools.foldl (maxStep stats) m := by
  intro tools
  induction tools with
  | nil => exact fun m => le_refl m
  | cons t rest ih =>
    intro m
    refine le_trans ?_ (ih (maxStep stats m t))
    unfold maxStep
    split
    · rename_i h
      exact le_of_lt h
    · exact le_refl m

theorem mem_le_foldl_maxStep (stats : List (String × Nat)) :
    ∀ (tools : List Tool) (m : Int) (t : Tool), t ∈ tools →
      (usageOf stats t.name : Int) ≤ tools.foldl (maxStep stats) m := by
  intro tools
  induction tools with
  | nil => intro m t h; cases h
  | cons u rest ih =>
    intro m t ht
    rcases List.mem_cons.mp ht with rfl | hrest
    · refine le_trans ?_ (init_le_foldl_maxStep stats rest (maxStep stats m t))
      unfold maxStep
      split
      · exact le_refl _
      · rename_i h
        exact le_of_not_lt h
    · exact ih (maxStep stats m u) t hrest

theorem foldl_maxStep_cases (stats : List (String × Nat)) :
    ∀ (tools : List Tool) (m : Int),
      tools.foldl (maxStep stats) m = m ∨
      ∃ t ∈ tools, tools.foldl (maxStep stats) m = (usageOf stats t.name : Int) := by
  intro tools
  induction tools with
  | nil => exact fun m => Or.inl rfl
  | cons u rest ih =>
    intro m
    rcases ih (maxStep stats m u) with heq | ⟨t, htmem, hteq⟩
    · rw [List.foldl_cons, heq]
      unfold maxStep
      split
      · exact Or.inr ⟨u, List.mem_cons_self u rest, rfl⟩
      · exact Or.inl rfl
    · exact Or.inr ⟨t, List.mem_cons_of_mem u htmem, hteq⟩

theorem maxUsage_achieved (tools : List Tool) (stats : List (String × Nat))
    (hne : tools ≠ []) :
    ∃ t ∈ tools, maxUsage tools stats = (usageOf stats t.name : Int) := by
  rcases foldl_maxStep_cases stats tools (-1) with heq | h
  · obtain ⟨u, rest, rfl⟩ := List.exists_cons_of_ne_nil hne
    have hle := mem_le_foldl_maxStep stats (u :: rest) (-1) u
      (List.mem_cons_self u rest)
    rw [heq] at hle
    have : (0 : Int) ≤ (usageOf stats u.name : Int) := Int.natCast_nonneg _
    omega
  · exact h

theorem mem_candidates_iff {tools : List Tool} {stats : List (String × Nat)}
    {t : Tool} :
    t ∈ candidates tools stats ↔
      t ∈ tools ∧ (usageOf stats t.name : Int) = maxUsage tools stats := by
  simp [candidates]

/-- C9: on the empty tool list `getMostFrequentTool` returns `null`; on a
non-empty list the candidate set is non-empty, any produced tool is one of
the inputs, and an in-range random draw always produces a tool. -/
theorem getMostFrequentTool_total :
    (∀ (stats : List (String × Nat)) (r : Nat),
      getMostFrequentTool [] stats r = none) ∧
    (∀ (tools : List Tool) (stats : List (String × Nat)),
      tools ≠ [] → candidates tools stats ≠ []) ∧
    (∀ (tools : List Tool) (stats : List (String × Nat)) (r : Nat) (t : Tool),
      getMostFrequentTool tools stats r = some t → t ∈ tools) ∧
    (∀ (tools : List Tool) (stats : List (String × Nat)) (r : Nat),
      tools ≠ [] → r < (candidates tools stats).length →
      ∃ t, t ∈ tools ∧ getMostFrequentTool tools stats r = some t) := by
  have hcand_ne : ∀ (tools : List Tool) (stats : List (String × Nat)),
      tools ≠ [] → candidates tools stats ≠ [] := by
    intro tools stats hne
    obtain ⟨t, htmem, hteq⟩ := maxUsage_achieved tools stats hne
    intro hnil
    have : t ∈ candidates tools stats := mem_candidates_iff.mpr ⟨htmem, hteq.symm⟩
    rw [hnil] at this
    cases this
  refine ⟨fun stats r => rfl, hcand_ne, ?_, ?_⟩
  · intro tools stats r t h
    simp only [getMostFrequentTool] at h
    split at h
    · cases h
    · exact (mem_candidates_iff.mp (List.getElem?_mem h)).1
  · intro tools stats r hne hr
    have hlen : (candidates tools stats).length ≠ 0 := by
      intro h0
      exact hcand_ne tools stats hne (List.length_eq_zero.mp h0)
    obtain ⟨t, ht⟩ : ∃ t, (candidates tools stats)[r]? = some t :=
      ⟨(candidates tools stats).get ⟨r, hr⟩,
        List.getElem?_eq_some_iff.mpr ⟨hr, rfl⟩⟩
    refine ⟨t, (mem_candidates_iff.mp (List.getElem?_mem ht)).1, ?_⟩
    unfold getMostFrequentTool
    rw [if_neg hlen]
    exact ht

/-- Concrete instantiation of `getMostFrequentTool_total`: a one-tool list
with empty stats yields that tool at draw 0. -/
theorem getMostFrequentTool_total_witness :
    ∃ t, t ∈ [Tool.mk "Tool A"] ∧
      getMostFrequentTool [Tool.mk "Tool A"] [] 0 = some t :=
  getMostFrequentTool_total.2.2.2 [Tool.mk "Tool A"] [] 0 (by decide) (by decide)

/-- C4: the picked tool's usage equals the maximum usage over the list and
is never strictly below another tool's count; every tool tied at the
maximum is a possible outcome for some random draw; with all-zero usage
every tool is a candidate; and on stats `{A:3, B:3, C:1}` the result is
Tool A or Tool B — each reachable — and never Tool C. -/
theorem pickWeightedTool_spec :
    (∀ (tools : List Tool) (stats : List (String × Nat)) (r : Nat) (t : Tool),
      getMostFrequentTool tools stats r = some t →
        (usageOf stats t.name : Int) = maxUsage tools stats ∧
        ∀ u ∈ tools, usageOf stats u.name ≤ usageOf stats t.name) ∧
    (∀ (tools : List Tool) (stats : List (String × Nat)) (t : Tool),
      t ∈ tools → (∀ u ∈ tools, usageOf stats u.name ≤ usageOf stats t.name) →
      ∃ r, getMostFrequentTool tools stats r = some t) ∧
    (∀ (tools : List Tool) (stats : List (String × Nat)),
      (∀ u ∈ tools, usageOf stats u.name = 0) →
      ∀ t ∈ tools, t ∈ candidates tools stats) ∧
    (∀ (r : Nat) (t : Tool),
      getMostFrequentTool [toolA, toolB, toolC] statsABC r = some t →
        t = toolA ∨ t = toolB) ∧
    (∃ r, getMostFrequentTool [toolA, toolB, toolC] statsABC r = some toolA) ∧
    (∃ r, getMostFrequentTool [toolA, toolB, toolC] statsABC r = some toolB) ∧
    (∀ r, getMostFrequentTool [toolA, toolB, toolC] statsABC r ≠ some toolC) := by
  have hmem_result : ∀ (tools : List Tool) (stats : List (String × Nat))
      (r : Nat) (t : Tool), getMostFrequentTool tools stats r = some t →
      t ∈ candidates tools stats := by
    intro tools stats r t h
    simp only [getMostFrequentTool] at h
    split at h
    · cases h
    · exact List.getElem?_mem h
  have hmax_of_top : ∀ (tools : List Tool) (stats : List (String × Nat))
      (t : Tool), t ∈ tools →
      (∀ u ∈ tools, usageOf stats u.name ≤ usageOf stats t.name) →
      (usageOf stats t.name : Int) = maxUsage tools stats := by
    intro tools stats t htmem htop
    obtain ⟨t', ht'mem, ht'eq⟩ :=
      maxUsage_achieved tools stats (List.ne_nil_of_mem htmem)
    have h1 : (usageOf stats t.name : Int) ≤ maxUsage tools stats :=
      mem_le_foldl_maxStep stats tools (-1) t htmem
    have h2 : usageOf stats t'.name ≤ usageOf stats t.name := htop t' ht'mem
    rw [ht'eq]
    omega
  have hcs : candidates [toolA, toolB, toolC] statsABC = [toolA, toolB] := by
    decide
  refine ⟨?_, ?_, ?_, ?_, ?_, ?_, ?_⟩
  · intro tools stats r t h
    have hc := mem_candidates_iff.mp (hmem_result tools stats r t h)
    refine ⟨hc.2, ?_⟩
    intro u humem
    have hle : (usageOf stats u.name : Int) ≤ maxUsage tools stats :=
      mem_le_foldl_maxStep stats tools (-1) u humem
    rw [← hc.2] at hle
    exact_mod_cast hle
  · intro tools stats t htmem htop
    have hcand : t ∈ candidates tools stats :=
      mem_candidates_iff.mpr ⟨htmem, hmax_of_top tools stats t htmem htop⟩
    obtain ⟨r, hr⟩ := List.mem_iff_getElem?.mp hcand
    refine ⟨r, ?_⟩
    simp only [getMostFrequentTool]
    rw [if_neg ?_]
    · exact hr
    · intro h0
      rw [List.length_eq_zero.mp h0] at hcand
      cases hcand
  · intro tools stats hzero t htmem
    refine mem_candidates_iff.mpr ⟨htmem, ?_⟩
    refine hmax_of_top tools stats t htmem ?_
    intro u humem
    rw [hzero u humem, hzero t htmem]
  · intro r t h
    have hc := hmem_result _ _ _ _ h
    rw [hcs] at hc
    rcases List.mem_cons.mp hc with rfl | hc'
    · exact Or.inl rfl
    · rcases List.mem_cons.mp hc' with rfl | hc''
      · exact Or.inr rfl
      · cases hc''
  · exact ⟨0, by rw [getMostFrequentTool, hcs]; decide⟩
  · exact ⟨1, by rw [getMostFrequentTool, hcs]; decide⟩
  · intro r h
    have hc := hmem_result _ _ _ _ h
    rw [hcs] at hc
    rcases List.mem_cons.mp hc with heq | hc'
    · exact absurd heq (by decide)
    · rcases List.mem_cons.mp hc' with heq | hc''
      · exact absurd heq (by decide)
      · cases hc''

/-- Concrete instantiation of `pickWeightedTool_spec`: Tool B (tied at the
maximum 3) is a possible outcome on scenario 3's stats. -/
theorem pickWeightedTool_spec_witness :
    ∃ r, getMostFrequentTool [toolA, toolB] statsABC r = some toolB :=
  pickWeightedTool_spec.2.1 [toolA, toolB] statsABC toolB (by decide)
    (by decide)

/-- C10: every entry of the two derived display lists is one of the loaded
records (unmatched stats keys and favorite filenames are silently dropped),
and each list has at most five entries. -/
theorem displayLists_spec (instrs : List Instruction)
    (usageStats : List (String × Nat)) (favorites : List String) :
    (∀ x ∈ topInstructions instrs usageStats, x.1 ∈ instrs) ∧
    (topInstructions instrs usageStats).length ≤ 5 ∧
    (∀ x ∈ favoritesData instrs favorites usageStats, x.1 ∈ instrs) ∧
    (favoritesData instrs favorites usageStats).length ≤ 5 := by
  refine ⟨?_, ?_, ?_, ?_⟩
  · intro x hx
    simp only [topInstructions, List.mem_filterMap] at hx
    obtain ⟨p, _, hp⟩ := hx
    obtain ⟨i, hfind, heq⟩ := Option.map_eq_some'.mp hp
    have := List.mem_of_find?_eq_some hfind
    rw [← heq]
    exact this
  · calc (topInstructions instrs usageStats).length
        ≤ ((usageStats.mergeSort (fun a b => decide (b.2 ≤ a.2))).take 5).length :=
          List.length_filterMap_le _ _
      _ ≤ 5 := List.length_take_le _ _
  · intro x hx
    simp only [favoritesData] at hx
    have hx' := (List.mergeSort_perm _ _).mem_iff.mp (List.mem_of_mem_take hx)
    simp only [List.mem_filterMap] at hx'
    obtain ⟨fn, _, hfn⟩ := hx'
    obtain ⟨i, hfind, heq⟩ := Option.map_eq_some'.mp hfn
    have := List.mem_of_find?_eq_some hfind
    rw [← heq]
    exact this
  · exact List.length_take_le _ _

/-- Concrete instantiation of `displayLists_spec`: with a stats key and a
favorite filename matching no record, both lists still have at most five
entries. -/
theorem displayLists_spec_witness :
    (topInstructions [aRec] [("ghost.md", 7), ("a.md", 1)]).length ≤ 5 ∧
    (favoritesData [aRec] ["ghost.md", "a.md"] [("a.md", 1)]).length ≤ 5 := by
  have h := displayLists_spec [aRec] [("ghost.md", 7), ("a.md", 1)]
    ["ghost.md", "a.md"]
  have h' := displayLists_spec [aRec] [("a.md", 1)] ["ghost.md", "a.md"]
  exact ⟨h.2.1, h'.2.2.2⟩

/-- C7: the emitted tag set is exactly the union of the category, the
subcategory path segments, the front-matter tags, and the keywords of the
three fixed lists whose case-insensitive whole-word regex matches the body;
in particular a listed keyword is a tag iff such a match exists. -/
theorem generateTags_spec (category : String)
    (subcategories frontMatterTags : List String) (body : String)
    (t : String) :
    t ∈ generateTags category subcategories frontMatterTags body ↔
      t = category ∨ t ∈ subcategories ∨ t ∈ frontMatterTags ∨
        (t ∈ languageKeywords ++ archKeywords ++ libraryKeywords ∧
          wordMatch t body = true) := by
  simp only [generateTags, foldl_setAdd_mem, mem_jsSetOfList, List.mem_cons,
    List.mem_append, List.mem_filter]
  tauto

/-- Concrete instantiation of `generateTags_spec`: a body mentioning
"React" as a whole word yields the `React` tag, and `"Reactive"` does
not match the whole-word regex for "React". -/
theorem generateTags_spec_witness :
    "React" ∈ generateTags "frontend" [] [] "Use React hooks." ∧
    ¬("React" ∈ generateTags "backend" [] [] "Reactive systems") := by
  constructor
  · exact (generateTags_spec "frontend" [] [] "Use React hooks."
      "React").mpr (Or.inr (Or.inr (Or.inr ⟨by decide, by decide⟩)))
  · intro h
    have h' := (generateTags_spec "backend" [] [] "Reactive systems"
      "React").mp h
    rcases h' with h1 | h1 | h1 | ⟨_, h2⟩
    · exact absurd h1 (by decide)
    · cases h1
    · cases h1
    · exact absurd h2 (by decide)

/-- C8 as stated fails on the code at a concrete input: with `customTools`
storing the unparsable string `"{"`, `loadCustomTools` and `loadStoredState`
fail instead of returning the default; with `darkMode` storing an
unparsable value while the OS prefers dark, `loadDarkMode` returns `false`
rather than the OS preference; and with nothing stored `loadStoredState`
reports dark mode `true` without consulting the OS preference at all. -/
theorem storageLoads_counterexample :
    (loadCustomTools badStore).isOk = false ∧
    (loadStoredState badStore).isOk = false ∧
    loadDarkMode badDarkStore true = .bool false ∧
    loadDarkMode badDarkStore true ≠ .bool true ∧
    (loadStoredState emptyStore).map (fun st => st.darkMode) = .ok true := by
  refine ⟨rfl, rfl, rfl, ?_, rfl⟩
  intro h
  exact JsValue.noConfusion h (fun hbt => Bool.noConfusion hbt)

/-- C8 amended: every loader returns its default when its key is absent or
holds the empty string, but only `loadDarkMode` catches parse failures —
returning `false`, not the OS preference — while the other loaders and
`loadStoredState` propagate the failure; the OS preference is used exactly
when the dark-mode key is absent or empty; and `loadStoredState`'s
dark-mode flag is the raw comparison `getItem('darkMode') !== 'false'`. -/
theorem storageLoads_amended :
    loadCustomTools emptyStore = .ok (.arr []) ∧
    loadInstructionUsageStats emptyStore = .ok (.obj []) ∧
    loadToolUsageStats emptyStore = .ok (.obj []) ∧
    loadFavoriteInstructions emptyStore = .ok (.arr []) ∧
    loadReferencesData emptyStore = .ok (.obj []) ∧
    loadStoredState emptyStore = .ok
      { darkMode := true, customTools := .arr [],
        instructionUsageStats := .obj [], toolUsageStats := .obj [],
        favoriteInstructions := .arr [] } ∧
    (∀ (store : Store) (osPrefersDark : Bool),
      store "darkMode" = none →
      loadDarkMode store osPrefersDark = .bool osPrefersDark) ∧
    (∀ (store : Store) (osPrefersDark : Bool) (s e : String),
      store "darkMode" = some s → s.isEmpty = false →
      jsonParse s = .error e →
      loadDarkMode store osPrefersDark = .bool false) ∧
    (∀ (store : Store) (s e : String),
      store "customTools" = some s → s.isEmpty = false →
      jsonParse s = .error e → loadCustomTools store = .error e) ∧
    (∀ (store : Store) (st : StoredState),
      loadStoredState store = .ok st →
      st.darkMode = (store "darkMode" != some "false")) := by
  refine ⟨rfl, rfl, rfl, rfl, rfl, rfl, ?_, ?_, ?_, ?_⟩
  · intro store osPrefersDark h
    simp [loadDarkMode, h]
  · intro store osPrefersDark s e hs hempty hparse
    simp [loadDarkMode, hs, hempty, hparse]
  · intro store s e hs hempty hparse
    simp [loadCustomTools, hs, hempty, hparse]
  · intro store st h
    simp only [loadStoredState, bind, Except.bind, pure, Except.pure] at h
    cases h1 : jsonParse (orDefault (store "customTools") "[]") with
    | error e => rw [h1] at h; cases h
    | ok v1 =>
      rw [h1] at h
      cases h2 : jsonParse (orDefault (store "instructionUsageStats") "\x7b\x7d") with
      | error e => rw [h2] at h; cases h
      | ok v2 =>
        rw [h2] at h
        cases h3 : jsonParse (orDefault (store "toolUsageStats") "\x7b\x7d") with
        | error e => rw [h3] at h; cases h
        | ok v3 =>
          rw [h3] at h
          cases h4 : jsonParse (orDefault (store "favoriteInstructions") "[]") with
          | error e => rw [h4] at h; cases h
          | ok v4 =>
            rw [h4] at h
            injection h with h'
            rw [← h']

/-- Concrete instantiation of `storageLoads_amended`: the parse failure of
the stored `customTools` value `"{"` propagates out of
`loadCustomTools`. -/
theorem storageLoads_amended_witness :
    loadCustomTools badStore = Except.error "SyntaxError" :=
  storageLoads_amended.2.2.2.2.2.2.2.2.1 badStore "\x7b" "SyntaxError" rfl rfl rfl

end Spec2Proof
